import Mathlib

/-!
Shallow embedding of `scripts/update_marketdata.py`.

The script fetches daily close prices in batches, forward-fills them to get a
last-known price, computes log-returns from the unfilled closes, estimates
annualized volatility over trailing windows (sample standard deviation with
`ddof=1` times `sqrt(252)`), and assembles one null-safe record per symbol.

Modelling conventions:
* A price cell is `Option ℚ` (`none` is pandas `NaN`); a close-price column is
  a `List (Option ℚ)` ordered by ascending date.
* The transcendental functions `np.log` and `np.sqrt` are abstract parameters
  `log sqrtQ : ℚ → ℚ`: every property proved below holds for all choices, and
  none of the script's control flow inspects their values.
* pandas reductions skip `NaN` (`skipna=True`): `std(ddof=1)` over a column is
  `none` when fewer than 2 valid entries remain, else the sample standard
  deviation of the valid entries.
* A fetched close DataFrame is `CloseDF` (row count plus named columns); a
  batch fetch outcome is `Option CloseDF`, `none` for a raised exception.
-/

namespace MarketData

/-- CONFIG: `LOOKBACK = "400d"`. -/
def LOOKBACK : String := "400d"

/-- CONFIG: `INTERVAL = "1d"`. -/
def INTERVAL : String := "1d"

/-- CONFIG: `TRADING_DAYS = 252`. -/
def TRADING_DAYS : ℕ := 252

/-- CONFIG: the window table `WINDOWS` (trading days per named window). -/
def WINDOWS : List (String × ℕ) :=
  [("weekly", 5), ("monthly", 21), ("quarterly", 63), ("semiannual", 126)]

/-- The `SYMBOLS` registry: insertion-ordered map from ticker to display name. -/
def SYMBOLS : List (String × String) :=
  [("^DJI", "Dow Jones Industrial Average (DJIA)"),
   ("^NYA", "NYSE Composite Index"),
   ("^IXIC", "Nasdaq Composite Index"),
   ("^NDX", "Nasdaq 100 (NDX)"),
   ("^GSPTSE", "S&P/TSX Composite Index"),
   ("TX60.TS", "S&P/TSX 60 Index"),
   ("^FTSE", "FTSE 100"),
   ("^FTMC", "FTSE 250"),
   ("^FCHI", "CAC 40 (France)"),
   ("^AEX", "AEX (Netherlands)"),
   ("^BFX", "BEL 20 (Belgium)"),
   ("^GDAXI", "DAX 40 (Germany)"),
   ("^MDAXI", "MDAX (Germany Mid Caps)"),
   ("^SSMI", "SMI - Swiss Market Index"),
   ("^SSHI", "SPI - Swiss Performance Index"),
   ("^BSESN", "SENSEX (India)"),
   ("^NSEI", "NIFTY 50 (India)"),
   ("^BVSP", "Ibovespa (IBOV)"),
   ("^IBX50", "IBrX 50"),
   ("BRAX11.SA", "iShares IBrX-Indice Brasil (IBrX-100) ETF (proxy do IBrX 100)"),
   ("^N225", "Nikkei 225"),
   ("1306.T", "NEXT FUNDS TOPIX ETF (proxy do TOPIX)"),
   ("^KS11", "KOSPI (South Korea)"),
   ("^KQ11", "KOSDAQ (South Korea)"),
   ("000001.SS", "SSE Composite Index (Shanghai)"),
   ("000300.SS", "CSI 300 (Shanghai + Shenzhen)"),
   ("399001.SZ", "SZSE Component Index (Shenzhen)"),
   ("399006.SZ", "ChiNext Index (Shenzhen)"),
   ("^HSI", "Hang Seng Index (HK50)"),
   ("^AXJO", "S&P/ASX 200"),
   ("^STI", "Straits Times Index (Singapore)")]

/-- `chunked(lst, n)`: successive slices `lst[i : i + n]` for `i = 0, n, 2n, …`.
(The script only ever calls it with `n = 100`.) -/
def chunked (n : ℕ) : List α → List (List α)
  | [] => []
  | x :: xs => (x :: xs.take (n - 1)) :: chunked n (xs.drop (n - 1))
termination_by l => l.length
decreasing_by simp [List.length_drop]; omega

/-- One output record (`results` list element / JSON `data` element).
`none` in a numeric field is JSON `null`. -/
structure ResultRecord where
  symbol : String
  name : String
  price : Option ℚ
  vol_annual : Option ℚ
  vol_semiannual : Option ℚ
  vol_quarterly : Option ℚ
  vol_monthly : Option ℚ
  vol_weekly : Option ℚ
deriving DecidableEq, Repr

/-- `_append_nulls`: the record appended for each symbol of a failed batch,
`SYMBOLS.get(sym, sym)` for the name and `None` everywhere else. -/
def nullRecord (reg : List (String × String)) (sym : String) : ResultRecord :=
  { symbol := sym
    name := (reg.lookup sym).getD sym
    price := none
    vol_annual := none
    vol_semiannual := none
    vol_quarterly := none
    vol_monthly := none
    vol_weekly := none }

/-- `close.ffill()` on one column, carrying `last`, the latest valid value seen
so far (initially none), forward over missing cells. -/
def ffillFrom (last : Option ℚ) : List (Option ℚ) → List (Option ℚ)
  | [] => []
  | none :: xs => last :: ffillFrom last xs
  | some v :: xs => some v :: ffillFrom (some v) xs

/-- `close.ffill()` on one column. -/
def ffill (col : List (Option ℚ)) : List (Option ℚ) :=
  ffillFrom none col

/-- `close_ffill.iloc[-1]` for one column: the last entry of the forward-filled
series (missing when the column is empty or ends in a still-missing cell). -/
def lastPrice (col : List (Option ℚ)) : Option ℚ :=
  ((ffill col).getLast?).join

/-- `close.shift(1)` on one column: values move down one row, first row `NaN`. -/
def shift1 (col : List (Option ℚ)) : List (Option ℚ) :=
  none :: col.dropLast

/-- One cell of `np.log(close / close.shift(1))`: `NaN` propagates, otherwise
the natural log of the ratio. -/
def retEntry (log : ℚ → ℚ) (a b : Option ℚ) : Option ℚ :=
  match a, b with
  | some x, some y => some (log (x / y))
  | _, _ => none

/-- `logret = np.log(close / close.shift(1))` on one column. Same row count as
the close column (pandas keeps the index; the first row is `NaN`). -/
def logretCol (log : ℚ → ℚ) (col : List (Option ℚ)) : List (Option ℚ) :=
  List.zipWith (retEntry log) col (shift1 col)

/-- Mean of a list of rationals (`sum / count`). -/
def listMean (xs : List ℚ) : ℚ :=
  xs.sum / (xs.length : ℚ)

/-- Sample variance with Bessel's correction (`ddof=1`):
`Σ (x - mean)² / (n - 1)`. Only meaningful for `n ≥ 2`, exactly where the
script uses it. -/
def sampleVar (xs : List ℚ) : ℚ :=
  (xs.map (fun x => (x - listMean xs) ^ 2)).sum / ((xs.length : ℚ) - 1)

/-- pandas `Series.std(ddof=1)` with `skipna=True` on one column: drop the
missing cells; `NaN` when fewer than 2 valid observations remain, else the
sample standard deviation of the valid ones. -/
def pdStd (sqrtQ : ℚ → ℚ) (col : List (Option ℚ)) : Option ℚ :=
  if (col.filterMap id).length < 2 then none
  else some (sqrtQ (sampleVar (col.filterMap id)))

/-- `logret.std(axis=0, ddof=1) * np.sqrt(TRADING_DAYS)` on one column: the
whole-history ("annual") annualized volatility. -/
def annVolFull (sqrtQ : ℚ → ℚ) (lr : List (Option ℚ)) : Option ℚ :=
  (pdStd sqrtQ lr).map (fun s => s * sqrtQ (TRADING_DAYS : ℚ))

/-- `_ann_vol_from_logret_window` on one column: `NaN` for an empty log-return
frame; take `tail(window)`; `NaN` when the tail has fewer than 2 rows; else
`tail.std(ddof=1) * sqrt(252)` (itself `NaN` when fewer than 2 valid cells). -/
def annVolWindow (sqrtQ : ℚ → ℚ) (lr : List (Option ℚ)) (window : ℕ) : Option ℚ :=
  if lr.isEmpty then none
  else if (lr.drop (lr.length - window)).length < 2 then none
  else (pdStd sqrtQ (lr.drop (lr.length - window))).map
    (fun s => s * sqrtQ (TRADING_DAYS : ℚ))

/-- Python `round(q, d)` idealized over ℚ: round `q·10^d` to an integer and
scale back. -/
def roundTo (d : ℕ) (q : ℚ) : ℚ :=
  ((round (q * 10 ^ d) : ℤ) : ℚ) / 10 ^ d

/-- The record the per-symbol loop of `main` appends for symbol `sym` whose
(normalized) close column is `col`: name from the registry with the symbol as
fallback, forward-filled last price rounded to 6 decimals, each volatility
figure rounded to 8 decimals, `None` wherever the figure is `NaN`. -/
def mkRecord (log sqrtQ : ℚ → ℚ) (reg : List (String × String)) (sym : String)
    (col : List (Option ℚ)) : ResultRecord :=
  let lr := logretCol log col
  { symbol := sym
    name := (reg.lookup sym).getD sym
    price := (lastPrice col).map (roundTo 6)
    vol_annual := (annVolFull sqrtQ lr).map (roundTo 8)
    vol_semiannual := (annVolWindow sqrtQ lr ((WINDOWS.lookup "semiannual").getD 0)).map (roundTo 8)
    vol_quarterly := (annVolWindow sqrtQ lr ((WINDOWS.lookup "quarterly").getD 0)).map (roundTo 8)
    vol_monthly := (annVolWindow sqrtQ lr ((WINDOWS.lookup "monthly").getD 0)).map (roundTo 8)
    vol_weekly := (annVolWindow sqrtQ lr ((WINDOWS.lookup "weekly").getD 0)).map (roundTo 8) }

/-- The close matrix extracted from one batch fetch (`_extract_close_df`
output): a row count (dates) and the named close columns that came back. -/
structure CloseDF where
  nrows : ℕ
  cols : List (String × List (Option ℚ))
deriving DecidableEq

/-- The column the engine sees for `sym` after the normalization
`if sym not in close.columns: close[sym] = np.nan` and `close = close[batch]`:
the fetched column when present, else an all-missing column. -/
def getCol (df : CloseDF) (sym : String) : List (Option ℚ) :=
  match df.cols.lookup sym with
  | some c => c
  | none => List.replicate df.nrows none

/-- One iteration of the batch loop in `main`. `fr = none` models a raised
exception in `yf.download`; an empty/unusable close frame, and an empty
forward-filled frame, take the same `_append_nulls` fallback; otherwise the
per-symbol loop appends one `mkRecord` per batch symbol in batch order. -/
def processBatch (log sqrtQ : ℚ → ℚ) (reg : List (String × String))
    (batch : List String) : Option CloseDF → List ResultRecord
  | none => batch.map (nullRecord reg)
  | some df =>
    if df.nrows = 0 ∨ df.cols = [] then batch.map (nullRecord reg)
    else if df.nrows = 0 ∨ batch = [] then batch.map (nullRecord reg)
    else batch.map (fun sym => mkRecord log sqrtQ reg sym (getCol df sym))

/-- The `results` list built by `main`: the registry keys are split into
batches of 100 and each batch's records are appended in order. `fetch` gives
each batch's fetch outcome. -/
def runMain (log sqrtQ : ℚ → ℚ) (reg : List (String × String))
    (fetch : List String → Option CloseDF) : List ResultRecord :=
  ((chunked 100 (reg.map Prod.fst)).map
    (fun batch => processBatch log sqrtQ reg batch (fetch batch))).flatten

/-- The JSON `payload` written by `main`. -/
structure Snapshot where
  generated_at_utc : String
  source : String
  interval : String
  lookback : String
  trading_days : ℕ
  count : ℕ
  data : List ResultRecord
deriving DecidableEq

/-- The `payload` dict of `main` for a given timestamp and results list. -/
def mkSnapshot (now : String) (results : List ResultRecord) : Snapshot :=
  { generated_at_utc := now
    source := "yfinance"
    interval := INTERVAL
    lookback := LOOKBACK
    trading_days := TRADING_DAYS
    count := results.length
    data := results }

/-- The sub-list of records a results list holds for one symbol. -/
def recordsFor (rs : List ResultRecord) (s : String) : List ResultRecord :=
  rs.filter (fun r => r.symbol == s)

/-! ### Helper lemmas -/

lemma chunked_flatten (n : ℕ) (l : List α) : (chunked n l).flatten = l := by
  have key : ∀ (m : ℕ) (l : List α), l.length ≤ m → (chunked n l).flatten = l := by
    intro m
    induction m with
    | zero =>
      intro l hl
      have : l = [] := List.length_eq_zero.mp (Nat.le_zero.mp hl)
      subst this
      simp [chunked]
    | succ m ih =>
      intro l hl
      cases l with
      | nil => simp [chunked]
      | cons x xs =>
        have hxs : xs.length ≤ m := by
          simp only [List.length_cons] at hl
          omega
        rw [chunked]
        rw [List.flatten_cons]
        rw [ih (xs.drop (n - 1)) (by simp only [List.length_drop]; omega)]
        simp [List.take_append_drop]
  exact key l.length l le_rfl

lemma symbol_nullRecord (reg : List (String × String)) (sym : String) :
    (nullRecord reg sym).symbol = sym := rfl

lemma symbol_mkRecord (log sqrtQ : ℚ → ℚ) (reg : List (String × String)) (sym : String)
    (col : List (Option ℚ)) : (mkRecord log sqrtQ reg sym col).symbol = sym := rfl

lemma map_symbol_map (batch : List String) (f : String → ResultRecord)
    (hf : ∀ b, (f b).symbol = b) :
    (batch.map f).map (fun r => r.symbol) = batch := by
  rw [List.map_map]
  have : ((fun r : ResultRecord => r.symbol) ∘ f) = fun b => b := by
    funext b; exact hf b
  rw [this, List.map_id_fun', id_eq]

lemma processBatch_symbols (log sqrtQ : ℚ → ℚ) (reg : List (String × String))
    (batch : List String) (fr : Option CloseDF) :
    (processBatch log sqrtQ reg batch fr).map (fun r => r.symbol) = batch := by
  cases fr with
  | none => exact map_symbol_map batch _ (symbol_nullRecord reg)
  | some df =>
    simp only [processBatch]
    split
    · exact map_symbol_map batch _ (symbol_nullRecord reg)
    · split
      · exact map_symbol_map batch _ (symbol_nullRecord reg)
      · exact map_symbol_map batch _ (fun b => symbol_mkRecord log sqrtQ reg b (getCol df b))

lemma runMain_symbols (log sqrtQ : ℚ → ℚ) (reg : List (String × String))
    (fetch : List String → Option CloseDF) :
    (runMain log sqrtQ reg fetch).map (fun r => r.symbol) = reg.map Prod.fst := by
  unfold runMain
  rw [List.map_flatten, List.map_map]
  have : ((List.map fun r : ResultRecord => r.symbol) ∘
      fun batch => processBatch log sqrtQ reg batch (fetch batch)) = fun batch => batch := by
    funext batch
    exact processBatch_symbols log sqrtQ reg batch (fetch batch)
  rw [this, List.map_id_fun', id_eq, chunked_flatten]

lemma retEntry_none_left (log : ℚ → ℚ) (b : Option ℚ) : retEntry log none b = none := by
  cases b <;> rfl

lemma logretCol_getElem (log : ℚ → ℚ) (col : List (Option ℚ)) (i : ℕ) (a b : Option ℚ)
    (ha : col[i + 1]? = some a) (hb : col[i]? = some b) :
    (logretCol log col)[i + 1]? = some (retEntry log a b) := by
  have hlen : i + 1 < col.length := (List.getElem?_eq_some.mp ha).1
  unfold logretCol shift1
  rw [List.getElem?_zipWith, ha, List.getElem?_cons_succ, List.getElem?_dropLast,
    if_pos (by omega), hb]

lemma zipWith_retEntry_none_left (log : ℚ → ℚ) :
    ∀ (n : ℕ) (l2 : List (Option ℚ)),
      List.zipWith (retEntry log) (List.replicate n none) l2
        = List.replicate (min n l2.length) none := by
  intro n
  induction n with
  | zero => intro l2; simp
  | succ n ih =>
    intro l2
    cases l2 with
    | nil => simp
    | cons y ys =>
      rw [List.replicate_succ, List.zipWith_cons_cons, retEntry_none_left, ih]
      simp [List.replicate_succ, Nat.succ_min_succ]

lemma logretCol_replicate_none (log : ℚ → ℚ) (n : ℕ) :
    logretCol log (List.replicate n none) = List.replicate n none := by
  unfold logretCol shift1
  rw [zipWith_retEntry_none_left]
  congr 1
  simp only [List.length_cons, List.length_dropLast, List.length_replicate]
  omega

lemma pdStd_replicate_none (sqrtQ : ℚ → ℚ) (n : ℕ) :
    pdStd sqrtQ (List.replicate n none) = none := by
  simp [pdStd, List.filterMap_replicate]

lemma annVolFull_replicate_none (sqrtQ : ℚ → ℚ) (n : ℕ) :
    annVolFull sqrtQ (List.replicate n none) = none := by
  simp [annVolFull, pdStd_replicate_none]

lemma annVolWindow_replicate_none (sqrtQ : ℚ → ℚ) (n w : ℕ) :
    annVolWindow sqrtQ (List.replicate n none) w = none := by
  unfold annVolWindow
  cases n with
  | zero => simp
  | succ m =>
    rw [if_neg (by simp)]
    simp only [List.length_replicate, List.drop_replicate]
    split
    · rfl
    · rw [pdStd_replicate_none]; rfl

lemma ffillFrom_replicate_none (last : Option ℚ) :
    ∀ n : ℕ, ffillFrom last (List.replicate n none) = List.replicate n last := by
  intro n
  induction n with
  | zero => rfl
  | succ m ih => rw [List.replicate_succ, ffillFrom, ih, List.replicate_succ]

lemma lastPrice_replicate_none (n : ℕ) :
    lastPrice (List.replicate n none) = none := by
  unfold lastPrice ffill
  rw [ffillFrom_replicate_none, List.getLast?_replicate]
  cases n <;> simp

lemma mkRecord_replicate_none (log sqrtQ : ℚ → ℚ) (reg : List (String × String))
    (sym : String) (n : ℕ) :
    mkRecord log sqrtQ reg sym (List.replicate n none) = nullRecord reg sym := by
  simp [mkRecord, nullRecord, logretCol_replicate_none, lastPrice_replicate_none,
    annVolFull_replicate_none, annVolWindow_replicate_none]

lemma filterMap_id_map_some (l : List ℚ) :
    List.filterMap id (l.map (some : ℚ → Option ℚ)) = l := by
  induction l with
  | nil => rfl
  | cons x xs ih => simp only [List.map_cons, List.filterMap_cons, id_eq, ih]

lemma zipWith_retEntry_some (log : ℚ → ℚ) :
    ∀ (xs ys : List ℚ),
      List.zipWith (retEntry log) (xs.map some) (ys.map some)
        = List.map some (List.zipWith (fun a b => log (a / b)) xs ys) := by
  intro xs
  induction xs with
  | nil => intro ys; simp
  | cons x xs ih =>
    intro ys
    cases ys with
    | nil => simp
    | cons y ys =>
      simp only [List.map_cons, List.zipWith_cons_cons, ih]
      rfl

lemma logretCol_map_some_cons (log : ℚ → ℚ) (p : ℚ) (ps : List ℚ) :
    logretCol log (List.map some (p :: ps))
      = none ::
        List.map some (List.zipWith (fun a b => log (a / b)) ps ((p :: ps).dropLast)) := by
  unfold logretCol shift1
  rw [← List.map_dropLast]
  simp only [List.map_cons]
  rw [List.zipWith_cons_cons, zipWith_retEntry_some]
  rfl

lemma c2_aux (sqrtQ : ℚ → ℚ) (rets : List ℚ) :
    annVolWindow sqrtQ (none :: rets.map some) rets.length
      = annVolFull sqrtQ (none :: rets.map some) := by
  unfold annVolWindow annVolFull pdStd
  rw [if_neg (by simp)]
  have hsub : (none :: rets.map some).length - rets.length = 1 := by
    simp only [List.length_cons, List.length_map]
    omega
  have hdrop : (none :: rets.map some).drop ((none :: rets.map some).length - rets.length)
      = rets.map some := by
    rw [hsub]
    rfl
  have hfm : List.filterMap id (none :: rets.map (some : ℚ → Option ℚ)) = rets := by
    show List.filterMap id (rets.map some) = rets
    exact filterMap_id_map_some rets
  rw [hdrop, hfm, filterMap_id_map_some]
  simp only [List.length_map]
  by_cases h : rets.length < 2 <;> simp [h]

/-! ### Claims -/

/-- C1: for every symbol column and every trailing window, the windowed
annualized volatility is missing when fewer than 2 valid (non-missing)
log-return observations fall inside the window (the last `window` log-return
rows), and otherwise equals the sample standard deviation of the valid
log-returns in the window (Bessel's correction, `ddof=1`) times
`sqrt(TRADING_DAYS) = sqrt(252)`. -/
theorem c1_window_vol_missing_or_sample_std (sqrtQ : ℚ → ℚ) (lr : List (Option ℚ))
    (w : ℕ) :
    annVolWindow sqrtQ lr w =
      if ((lr.drop (lr.length - w)).filterMap id).length < 2 then none
      else some (sqrtQ (sampleVar ((lr.drop (lr.length - w)).filterMap id))
        * sqrtQ (TRADING_DAYS : ℚ)) := by
  cases lr with
  | nil => simp [annVolWindow]
  | cons x xs =>
    unfold annVolWindow
    rw [if_neg (by simp)]
    by_cases h1 : ((x :: xs).drop ((x :: xs).length - w)).length < 2
    · rw [if_pos h1,
        if_pos (lt_of_le_of_lt (List.length_filterMap_le id _) h1)]
    · rw [if_neg h1]
      unfold pdStd
      by_cases h2 : (((x :: xs).drop ((x :: xs).length - w)).filterMap id).length < 2
      · rw [if_pos h2, if_pos h2]
        rfl
      · rw [if_neg h2, if_neg h2]
        rfl

/-- C2: for a close column with zero missing values, the windowed volatility
with the window set to the full log-return history length (one fewer than the
number of close rows) coincides with the whole-history ("annual")
volatility. -/
theorem c2_full_window_eq_whole_history (log sqrtQ : ℚ → ℚ) (prices : List ℚ) :
    annVolWindow sqrtQ (logretCol log (prices.map some)) (prices.length - 1)
      = annVolFull sqrtQ (logretCol log (prices.map some)) := by
  cases prices with
  | nil => rfl
  | cons p ps =>
    rw [logretCol_map_some_cons]
    have hw : (p :: ps).length - 1
        = (List.zipWith (fun a b => log (a / b)) ps ((p :: ps).dropLast)).length := by
      simp only [List.length_cons, List.length_zipWith, List.length_dropLast]
      omega
    rw [hw]
    exact c2_aux sqrtQ _

/-- C3: a batch whose fetch raised an exception (`fr = none`) or whose
response is empty/unusable (no rows or no close columns) yields, for every
symbol of the batch, the all-missing record with the name still resolved from
the registry (falling back to the symbol itself), and the overall run still
emits one record per registry symbol whatever each batch's fetch returned. -/
theorem c3_batch_failure_degrades_to_nulls (log sqrtQ : ℚ → ℚ)
    (reg : List (String × String)) (batch : List String) (fr : Option CloseDF)
    (h : fr = none ∨ ∃ df, fr = some df ∧ (df.nrows = 0 ∨ df.cols = [])) :
    processBatch log sqrtQ reg batch fr = batch.map (nullRecord reg) ∧
    (∀ sym, nullRecord reg sym =
      { symbol := sym, name := (reg.lookup sym).getD sym, price := none,
        vol_annual := none, vol_semiannual := none, vol_quarterly := none,
        vol_monthly := none, vol_weekly := none }) ∧
    (∀ fetch : List String → Option CloseDF,
      (runMain log sqrtQ reg fetch).map (fun r => r.symbol) = reg.map Prod.fst) := by
  refine ⟨?_, fun sym => rfl, fun fetch => runMain_symbols log sqrtQ reg fetch⟩
  rcases h with h | ⟨df, rfl, hdf⟩
  · subst h; rfl
  · simp only [processBatch]
    rw [if_pos hdf]

/-- C3 witness: an exception on the batch `["A", "B"]` with registry
`[("A", "Alpha")]` produces exactly the two null records. -/
theorem c3_witness :
    processBatch (fun q => q) (fun q => q) [("A", "Alpha")] ["A", "B"] none
      = (["A", "B"]).map (nullRecord [("A", "Alpha")]) :=
  (c3_batch_failure_degrades_to_nulls (fun q => q) (fun q => q) [("A", "Alpha")]
    ["A", "B"] none (Or.inl rfl)).1

/-- C4: the log-return cell at row `t = i + 1` is computed from the unfilled
close column — it equals `log(close[t] / close[t-1])` when both closes are
present and is missing when either is missing (a gap is never synthesized into
a return) — while the forward-filled series only feeds the `price` field. -/
theorem c4_returns_from_unfilled_closes (log sqrtQ : ℚ → ℚ)
    (reg : List (String × String)) (sym : String) (col : List (Option ℚ))
    (i : ℕ) (a b : Option ℚ) (ha : col[i + 1]? = some a) (hb : col[i]? = some b) :
    (logretCol log col)[i + 1]? = some (retEntry log a b) ∧
    (∀ x y : ℚ, a = some x → b = some y →
      (logretCol log col)[i + 1]? = some (some (log (x / y)))) ∧
    (a = none ∨ b = none → (logretCol log col)[i + 1]? = some none) ∧
    (mkRecord log sqrtQ reg sym col).vol_annual
      = (annVolFull sqrtQ (logretCol log col)).map (roundTo 8) ∧
    (mkRecord log sqrtQ reg sym col).price = (lastPrice col).map (roundTo 6) := by
  have hmain := logretCol_getElem log col i a b ha hb
  refine ⟨hmain, ?_, ?_, rfl, rfl⟩
  · intro x y hx hy
    subst hx; subst hy
    exact hmain
  · intro hab
    rcases hab with hab | hab
    · subst hab; rw [hmain, retEntry_none_left]
    · subst hab; rw [hmain]; cases a <;> rfl

/-- C4 witness: with closes `[2, 6]` the return cell at row 1 is the log of
the ratio `6 / 2`. -/
theorem c4_witness :
    (logretCol (fun q => q) [some (2 : ℚ), some 6])[0 + 1]?
      = some (retEntry (fun q => q) (some 6) (some 2)) :=
  (c4_returns_from_unfilled_closes (fun q => q) (fun q => q) [] "A"
    [some 2, some 6] 0 (some 6) (some 2) rfl rfl).1

/-- C5: every run emits exactly one record per requested symbol, in registry
iteration order (the emitted symbol sequence is exactly the registry key
sequence), and the snapshot's `count` field equals the length of its `data`
array. -/
theorem c5_one_record_per_symbol_in_order (log sqrtQ : ℚ → ℚ)
    (reg : List (String × String)) (fetch : List String → Option CloseDF)
    (now : String) :
    (runMain log sqrtQ reg fetch).map (fun r => r.symbol) = reg.map Prod.fst ∧
    (mkSnapshot now (runMain log sqrtQ reg fetch)).count
      = (mkSnapshot now (runMain log sqrtQ reg fetch)).data.length :=
  ⟨runMain_symbols log sqrtQ reg fetch, rfl⟩

/-- C6: a requested symbol absent from the fetched table's columns gets an
all-missing column before any downstream computation, and its record has a
missing last price and missing volatility at every window — the all-missing
column yields exactly the null record, never a crash and never a zero. -/
theorem c6_absent_symbol_all_missing (log sqrtQ : ℚ → ℚ)
    (reg : List (String × String)) (sym : String) (df : CloseDF)
    (h : df.cols.lookup sym = none) :
    getCol df sym = List.replicate df.nrows none ∧
    (∀ n, mkRecord log sqrtQ reg sym (List.replicate n none) = nullRecord reg sym) ∧
    mkRecord log sqrtQ reg sym (getCol df sym) = nullRecord reg sym := by
  have h1 : getCol df sym = List.replicate df.nrows none := by
    unfold getCol
    rw [h]
  exact ⟨h1, fun n => mkRecord_replicate_none log sqrtQ reg sym n,
    by rw [h1]; exact mkRecord_replicate_none log sqrtQ reg sym df.nrows⟩

/-- C6 witness: the symbol `"B"` is absent from a two-row table holding only
column `"A"`, so it is normalized to an all-missing column. -/
theorem c6_witness :
    getCol ⟨2, [("A", [some 1, some 1])]⟩ "B" = List.replicate 2 none :=
  (c6_absent_symbol_all_missing (fun q => q) (fun q => q) [] "B"
    ⟨2, [("A", [some 1, some 1])]⟩ (by decide)).1

/-- C7 counterexample: for the two-row close column `[1, 2]` the derived
log-return column also has 2 rows, not `2 - 1 = 1`: pandas keeps the date
index of the close matrix and fills the first row with `NaN` instead of
dropping it. -/
theorem c7_counterexample :
    ¬ ((logretCol (fun q => q) [some (1 : ℚ), some 2]).length
      = ([some (1 : ℚ), some (2 : ℚ)] : List (Option ℚ)).length - 1) := by
  decide

lemma retEntry_none_right (log : ℚ → ℚ) (a : Option ℚ) : retEntry log a none = none := by
  cases a <;> rfl

/-- C7 (amended): the log-return column has the same number of date rows as
the close column, its first row is missing, and each later row `t = i + 1`
equals `log(price[t] / price[t-1])` when both closes are present and is
missing when either is missing. -/
theorem c7_logret_shape (log : ℚ → ℚ) (col : List (Option ℚ)) :
    (logretCol log col).length = col.length ∧
    (col ≠ [] → (logretCol log col)[0]? = some none) ∧
    (∀ (i : ℕ) (a b : Option ℚ), col[i + 1]? = some a → col[i]? = some b →
      (logretCol log col)[i + 1]? = some (retEntry log a b)) := by
  refine ⟨?_, ?_, fun i a b ha hb => logretCol_getElem log col i a b ha hb⟩
  · cases col with
    | nil => rfl
    | cons x xs =>
      simp only [logretCol, shift1, List.length_zipWith, List.length_cons,
        List.length_dropLast]
      omega
  · intro hne
    cases col with
    | nil => exact absurd rfl hne
    | cons x xs =>
      simp only [logretCol, shift1, List.zipWith_cons_cons, List.getElem?_cons_zero,
        retEntry_none_right]

/-- C7 witness: with closes `[3, 6]` the log-return column's row 1 holds the
log of the ratio `6 / 3`. -/
theorem c7_witness :
    (logretCol (fun q => q) [some (3 : ℚ), some 6])[0 + 1]?
      = some (retEntry (fun q => q) (some 6) (some 3)) :=
  (c7_logret_shape (fun q => q) [some 3, some 6]).2.2 0 (some 6) (some 3) rfl rfl

lemma mem_of_getLast?_eq : ∀ (l : List (Option ℚ)) (a : Option ℚ),
    l.getLast? = some a → a ∈ l := by
  intro l
  induction l with
  | nil => intro a h; simp at h
  | cons x xs ih =>
    intro a h
    cases xs with
    | nil =>
      rw [List.getLast?_singleton] at h
      cases h
      exact List.mem_singleton_self x
    | cons y ys =>
      rw [List.getLast?_cons_cons] at h
      exact List.mem_cons_of_mem x (ih a h)

/-- C8: the reported last price is the final value of the forward-filled close
series — for closes `[100, null, null]` it is `100`; any column that is still
all-missing after forward-fill reports a missing last price; and the record's
`price` field is exactly the (rounded) forward-filled last value. -/
theorem c8_last_price_is_ffill_final (log sqrtQ : ℚ → ℚ)
    (reg : List (String × String)) (sym : String) :
    lastPrice [some (100 : ℚ), none, none] = some 100 ∧
    (∀ col : List (Option ℚ), (∀ x ∈ ffill col, x = none) → lastPrice col = none) ∧
    (∀ col, (mkRecord log sqrtQ reg sym col).price = (lastPrice col).map (roundTo 6)) := by
  refine ⟨rfl, ?_, fun col => rfl⟩
  intro col hall
  unfold lastPrice
  cases hlast : (ffill col).getLast? with
  | none => rfl
  | some v =>
    rw [hall v (mem_of_getLast?_eq (ffill col) v hlast)]
    rfl

/-- C8 witness: an all-missing three-row column reports a missing last
price. -/
theorem c8_witness : lastPrice [none, none, none] = none :=
  (c8_last_price_is_ffill_final (fun q => q) (fun q => q) [] "A").2.1
    [none, none, none] (by decide)

lemma map_roundTo_dyadic (d : ℕ) (o : Option ℚ) (q : ℚ)
    (h : o.map (roundTo d) = some q) : ∃ k : ℤ, q = (k : ℚ) / 10 ^ d := by
  obtain ⟨v, _, hv⟩ := Option.map_eq_some'.mp h
  exact ⟨round (v * 10 ^ d), by rw [← hv]; rfl⟩

lemma mem_processBatch_cases (log sqrtQ : ℚ → ℚ) (reg : List (String × String))
    (batch : List String) (fr : Option CloseDF) (r : ResultRecord)
    (hr : r ∈ processBatch log sqrtQ reg batch fr) :
    (∃ sym, r = nullRecord reg sym) ∨ ∃ sym c, r = mkRecord log sqrtQ reg sym c := by
  cases fr with
  | none =>
    obtain ⟨sym, _, heq⟩ := List.mem_map.mp hr
    exact Or.inl ⟨sym, heq.symm⟩
  | some df =>
    simp only [processBatch] at hr
    split at hr
    · obtain ⟨sym, _, heq⟩ := List.mem_map.mp hr
      exact Or.inl ⟨sym, heq.symm⟩
    · split at hr
      · obtain ⟨sym, _, heq⟩ := List.mem_map.mp hr
        exact Or.inl ⟨sym, heq.symm⟩
      · obtain ⟨sym, _, heq⟩ := List.mem_map.mp hr
        exact Or.inr ⟨sym, getCol df sym, heq.symm⟩

/-- C9: every record the run emits carries a price that is an exact multiple
of `10⁻⁶` (rounded to 6 decimal places) whenever it is non-missing, and each
volatility figure an exact multiple of `10⁻⁸` (rounded to 8 decimal places)
whenever non-missing; missing figures stay `none` (JSON `null`), never a
sentinel number. -/
theorem c9_rounding_six_and_eight_decimals (log sqrtQ : ℚ → ℚ)
    (reg : List (String × String)) (fetch : List String → Option CloseDF)
    (r : ResultRecord) (hr : r ∈ runMain log sqrtQ reg fetch) :
    (∀ q, r.price = some q → ∃ k : ℤ, q = (k : ℚ) / 10 ^ 6) ∧
    (∀ q, r.vol_annual = some q → ∃ k : ℤ, q = (k : ℚ) / 10 ^ 8) ∧
    (∀ q, r.vol_semiannual = some q → ∃ k : ℤ, q = (k : ℚ) / 10 ^ 8) ∧
    (∀ q, r.vol_quarterly = some q → ∃ k : ℤ, q = (k : ℚ) / 10 ^ 8) ∧
    (∀ q, r.vol_monthly = some q → ∃ k : ℤ, q = (k : ℚ) / 10 ^ 8) ∧
    (∀ q, r.vol_weekly = some q → ∃ k : ℤ, q = (k : ℚ) / 10 ^ 8) := by
  unfold runMain at hr
  obtain ⟨l, hl, hrl⟩ := List.mem_flatten.mp hr
  obtain ⟨batch, _, rfl⟩ := List.mem_map.mp hl
  rcases mem_processBatch_cases log sqrtQ reg batch (fetch batch) r hrl with
    ⟨sym, rfl⟩ | ⟨sym, c, rfl⟩
  · refine ⟨?_, ?_, ?_, ?_, ?_, ?_⟩ <;> (intro q hq; simp [nullRecord] at hq)
  · exact ⟨fun q hq => map_roundTo_dyadic 6 _ q hq,
      fun q hq => map_roundTo_dyadic 8 _ q hq,
      fun q hq => map_roundTo_dyadic 8 _ q hq,
      fun q hq => map_roundTo_dyadic 8 _ q hq,
      fun q hq => map_roundTo_dyadic 8 _ q hq,
      fun q hq => map_roundTo_dyadic 8 _ q hq⟩

/-- C9 witness: in a run whose only record has last price 2, the reported
price is a multiple of `10⁻⁶`. -/
theorem c9_witness : ∃ k : ℤ, roundTo 6 2 = (k : ℚ) / 10 ^ 6 := by
  have hrun : runMain (fun q : ℚ => q) (fun q : ℚ => q) [("A", "Alpha")]
      (fun _ => some ⟨2, [("A", [some 1, some 2])]⟩)
      = [mkRecord (fun q => q) (fun q => q) [("A", "Alpha")] "A" [some 1, some 2]] := by
    simp [runMain, chunked, processBatch, getCol]
  have hmem : mkRecord (fun q : ℚ => q) (fun q : ℚ => q) [("A", "Alpha")] "A"
      [some 1, some 2]
      ∈ runMain (fun q : ℚ => q) (fun q : ℚ => q) [("A", "Alpha")]
        (fun _ => some ⟨2, [("A", [some 1, some 2])]⟩) := by
    rw [hrun]
    exact List.mem_singleton_self _
  exact (c9_rounding_six_and_eight_decimals (fun q => q) (fun q => q) [("A", "Alpha")]
    (fun _ => some ⟨2, [("A", [some 1, some 2])]⟩) _ hmem).1 (roundTo 6 2) rfl

lemma recordsFor_map (batch : List String) (f : String → ResultRecord)
    (hf : ∀ b, (f b).symbol = b) (s : String) :
    recordsFor (batch.map f) s = (batch.filter (fun b => b == s)).map f := by
  unfold recordsFor
  rw [List.filter_map]
  have : ((fun r : ResultRecord => r.symbol == s) ∘ f) = fun b => b == s := by
    funext b
    simp [Function.comp, hf b]
  rw [this]

lemma recordsFor_map_congr (batch : List String) (f g : String → ResultRecord)
    (hf : ∀ b, (f b).symbol = b) (hg : ∀ b, (g b).symbol = b) (s : String)
    (hfg : f s = g s) :
    recordsFor (batch.map f) s = recordsFor (batch.map g) s := by
  rw [recordsFor_map batch f hf s, recordsFor_map batch g hg s]
  apply List.map_congr_left
  intro b hb
  have hbs : b = s := eq_of_beq (List.mem_filter.mp hb).2
  rw [hbs, hfg]

/-- C10: the records a batch produces for a symbol `s` depend on the fetched
close matrix only through its date-row count and `s`'s own column: two fetched
tables over the same date index that agree on `s`'s column (both present and
equal, or both absent) yield identical records for `s`, whatever the other
columns hold. -/
theorem c10_per_symbol_column_independence (log sqrtQ : ℚ → ℚ)
    (reg : List (String × String)) (batch : List String) (s : String)
    (df1 df2 : CloseDF) (hn : df1.nrows = df2.nrows)
    (hc : df1.cols.lookup s = df2.cols.lookup s) :
    recordsFor (processBatch log sqrtQ reg batch (some df1)) s
      = recordsFor (processBatch log sqrtQ reg batch (some df2)) s := by
  have hnull : ∀ b, (nullRecord reg b).symbol = b := fun b => rfl
  have hmk1 : ∀ b, (mkRecord log sqrtQ reg b (getCol df1 b)).symbol = b := fun b => rfl
  have hmk2 : ∀ b, (mkRecord log sqrtQ reg b (getCol df2 b)).symbol = b := fun b => rfl
  simp only [processBatch]
  by_cases hz2 : df2.nrows = 0
  · have hz1 : df1.nrows = 0 := by rw [hn]; exact hz2
    rw [if_pos (Or.inl hz1), if_pos (Or.inl hz2)]
  · have hz1 : ¬ df1.nrows = 0 := by rw [hn]; exact hz2
    by_cases hb : batch = []
    · subst hb
      simp [recordsFor]
    · by_cases hc1 : df1.cols = []
      · have hl2 : df2.cols.lookup s = none := by
          rw [← hc, hc1]
          rfl
        rw [if_pos (Or.inr hc1)]
        by_cases hc2 : df2.cols = []
        · rw [if_pos (Or.inr hc2)]
        · rw [if_neg (by simp [hz2, hc2]), if_neg (by simp [hz2, hb])]
          refine recordsFor_map_congr batch _ _ hnull hmk2 s ?_
          have hcol : getCol df2 s = List.replicate df2.nrows none := by
            unfold getCol
            rw [hl2]
          rw [hcol, mkRecord_replicate_none]
      · by_cases hc2 : df2.cols = []
        · have hl1 : df1.cols.lookup s = none := by
            rw [hc, hc2]
            rfl
          rw [if_pos (Or.inr hc2), if_neg (by simp [hz1, hc1]), if_neg (by simp [hz1, hb])]
          refine recordsFor_map_congr batch _ _ hmk1 hnull s ?_
          have hcol : getCol df1 s = List.replicate df1.nrows none := by
            unfold getCol
            rw [hl1]
          rw [hcol, mkRecord_replicate_none]
        · rw [if_neg (by simp [hz1, hc1]), if_neg (by simp [hz1, hb]),
            if_neg (by simp [hz2, hc2]), if_neg (by simp [hz2, hb])]
          refine recordsFor_map_congr batch _ _ hmk1 hmk2 s ?_
          have hcol : getCol df1 s = getCol df2 s := by
            unfold getCol
            rw [hc, hn]
          rw [hcol]

/-- C10 witness: two tables sharing the date index, both lacking column
`"B"`, but differing in column `"A"`, give symbol `"B"` the same records. -/
theorem c10_witness :
    recordsFor (processBatch (fun q => q) (fun q => q) [("B", "Beta")] ["A", "B"]
      (some ⟨2, [("A", [some 1, some 2])]⟩)) "B"
      = recordsFor (processBatch (fun q => q) (fun q => q) [("B", "Beta")] ["A", "B"]
        (some ⟨2, [("A", [some 3, none])]⟩)) "B" :=
  c10_per_symbol_column_independence (fun q => q) (fun q => q) [("B", "Beta")]
    ["A", "B"] "B" ⟨2, [("A", [some 1, some 2])]⟩ ⟨2, [("A", [some 3, none])]⟩
    rfl (by decide)

end MarketData
